import Mathlib

/-!
Verification development for the SpiderMonkey regular-expression core in
`js/src/vm/RegExpObject.cpp`: flag parsing, pattern rendering, the shared
pattern record and its compilation fast path, the compartment-level cache
(`RegExpCompartment`), sweep-based reclamation, `MatchPairs` buffers, and the
`RegExpShared::execute` dispatcher with its sticky-displacement emulation and
interrupt-retry loop.

Machine integers (`size_t`) are modelled as `Nat`, with explicit `% 2 ^ 64`
arithmetic where overflow matters.  Strings are `List Char`.  External
collaborators that live outside `RegExpObject.cpp` (the irregexp interpreter
and jit entry points, `StringFindPattern`, `StringHasRegExpMetaChars`,
`MatchPairs::checkAgainst`, GC finalization predicates) are either taken as
parameters or modelled from the specification, as marked in doc comments.
-/

/-- Flag bitset of a regular expression, one Bool per bit of `RegExpFlag`
(`JSREG_FOLD`, `JSREG_GLOB`, `JSREG_MULTILINE`, `JSREG_STICKY`). -/
structure RegExpFlags where
  ignoreCase : Bool
  global : Bool
  multiline : Bool
  sticky : Bool
  deriving DecidableEq

/-- The all-clear flag bitset `RegExpFlag(0)`. -/
def noFlags : RegExpFlags :=
  { ignoreCase := false, global := false, multiline := false, sticky := false }

/-- The flag letter recognized by the parser switch: `i`, `g`, `m`, `y`. -/
def recognizedFlagChar (c : Char) : Bool :=
  c = 'i' || c = 'g' || c = 'm' || c = 'y'

/-- The bit of the flag bitset addressed by a given flag letter
(`false` for characters that are not flag letters). -/
def flagBit (f : RegExpFlags) (c : Char) : Bool :=
  if c = 'i' then f.ignoreCase
  else if c = 'g' then f.global
  else if c = 'm' then f.multiline
  else if c = 'y' then f.sticky
  else false

/-- One iteration of the flag-parsing switch (`RegExpObject.cpp:877-898`),
with `HandleRegExpFlag` (`RegExpObject.cpp:862-869`) inlined per case:
`none` when the letter is unknown or its bit is already set. -/
def flagStep (c : Char) (f : RegExpFlags) : Option RegExpFlags :=
  if c = 'i' then
    if f.ignoreCase then none else some { f with ignoreCase := true }
  else if c = 'g' then
    if f.global then none else some { f with global := true }
  else if c = 'm' then
    if f.multiline then none else some { f with multiline := true }
  else if c = 'y' then
    if f.sticky then none else some { f with sticky := true }
  else none

/-- The loop of the static `ParseRegExpFlags` template
(`RegExpObject.cpp:871-902`): returns the ok-bit, the flag bitset written to
`flagsOut` so far, and the last character written to `lastParsedOut`. -/
def ParseRegExpFlagsLoop :
    List Char → RegExpFlags → Option Char → Bool × RegExpFlags × Option Char
  | [], f, last => (true, f, last)
  | c :: rest, f, _ =>
    match flagStep c f with
    | some f2 => ParseRegExpFlagsLoop rest f2 (some c)
    | none => (false, f, some c)

/-- `js::ParseRegExpFlags` (`RegExpObject.cpp:871-902` as driven from
`RegExpObject.cpp:904-933`): parse a flag string starting from
`*flagsOut = RegExpFlag(0)`. -/
def ParseRegExpFlags (chars : List Char) : Bool × RegExpFlags × Option Char :=
  ParseRegExpFlagsLoop chars noFlags none

/-- The flag letters appended by `RegExpObject::toString`
(`RegExpObject.cpp:417-424`), in the source's fixed order g, i, m, y. -/
def flagSuffix (f : RegExpFlags) : List Char :=
  (if f.global then ['g'] else [])
    ++ (if f.ignoreCase then ['i'] else [])
    ++ (if f.multiline then ['m'] else [])
    ++ (if f.sticky then ['y'] else [])

/-- `RegExpObject::toString` (`RegExpObject.cpp:401-427`): render
`/source/flags`, with an empty source rendered as the body `/(?:)/`. -/
def regExpToString (source : List Char) (f : RegExpFlags) : List Char :=
  (if source.length ≠ 0 then '/' :: (source ++ ['/'])
   else ['/', '(', '?', ':', ')', '/'])
    ++ flagSuffix f

/-- One capture pair of a `MatchPairs` buffer: `(start, limit)` offsets, both
`-1` when the capture did not participate (`MatchPair` in `vm/MatchPairs.h`,
as used throughout `RegExpObject.cpp`). -/
structure MatchPair where
  start : Int
  limit : Int
  deriving DecidableEq

/-- The per-pair body of `MatchPairs::displace` (`RegExpObject.cpp:177-181`):
add `disp` to each offset that is not negative. -/
def MatchPair.displaceOne (p : MatchPair) (disp : Nat) : MatchPair :=
  { start := p.start + (if p.start < 0 then 0 else (disp : Int)),
    limit := p.limit + (if p.limit < 0 then 0 else (disp : Int)) }

/-- `MatchPairs::displace` (`RegExpObject.cpp:171-182`): a no-op when
`disp = 0`, otherwise displace every pair. -/
def displacePairs (pairs : List MatchPair) (disp : Nat) : List MatchPair :=
  if disp = 0 then pairs else pairs.map (fun p => p.displaceOne disp)

/-- Modelled from the spec: the per-pair condition checked by
`MatchPairs::checkAgainst` (declared in `vm/MatchPairs.h`, not part of the
excerpt): each recorded offset is `-1` or lies within `[0, inputLength]`. -/
def MatchPair.withinBounds (p : MatchPair) (inputLength : Nat) : Bool :=
  (p.start = -1 || (0 ≤ p.start && p.start ≤ (inputLength : Int)))
    && (p.limit = -1 || (0 ≤ p.limit && p.limit ≤ (inputLength : Int)))

/-- Modelled from the spec: `MatchPairs::checkAgainst` as a predicate — the
consistency assertion holds exactly when every pair is within bounds. -/
def checkAgainstOk (pairs : List MatchPair) (inputLength : Nat) : Bool :=
  pairs.all (fun p => p.withinBounds inputLength)

/-- `size_t` modulus: the execute path does raw 64-bit unsigned arithmetic. -/
def wordSize : Nat := 2 ^ 64

/-- The sticky slice length computed by `length -= displacement`
(`RegExpObject.cpp:572`): an unsigned (`size_t`) subtraction with no bounds
check, so it wraps modulo `2 ^ 64` when `start > length`. -/
def stickySliceLength (len start : Nat) : Nat :=
  (len + (wordSize - start % wordSize)) % wordSize

/-- Result of one underlying irregexp engine run (`irregexp::InterpretCode` /
`irregexp::ExecuteCode`, external to the excerpt): an internal error or
interrupt-triggered abort, no match, or a match filling the output pairs. -/
inductive InterpResult where
  | error
  | notFound
  | found (pairs : List MatchPair)
  deriving DecidableEq

/-- Match status returned by `RegExpShared::execute`
(`RegExpRunStatus` values `Error`, `Success_NotFound`, `Success`). -/
inductive RunStatus where
  | error
  | notFound
  | success
  deriving DecidableEq

/-- The bytecode-interpreter path of `RegExpShared::execute` around one engine
run (`RegExpObject.cpp:560-615`), with the engine abstracted as `interp`
(chars after the `charsOffset` displacement, start position, slice length).
Sticky emulation per `RegExpObject.cpp:564-574`: `displacement := start`,
`charsOffset += displacement`, `length -= displacement` (unsigned), and
`start := 0`; on success with a buffer, `matches->displace(displacement)`
(`RegExpObject.cpp:610-613`). -/
def executeInterp (interp : List Char → Nat → Nat → InterpResult)
    (sticky : Bool) (input : List Char) (start : Nat) (wantMatches : Bool) :
    RunStatus × Option (List MatchPair) :=
  let charsOffset := if sticky then start else 0
  let length := if sticky then stickySliceLength input.length start
                else input.length
  let start2 := if sticky then 0 else start
  let displacement := if sticky then start else 0
  match interp (input.drop charsOffset) start2 length with
  | .error => (.error, none)
  | .notFound => (.notFound, none)
  | .found pairs =>
    if wantMatches then (.success, some (displacePairs pairs displacement))
    else (.success, none)

/-- An engine run equivalent to the sticky-compiled pattern `^(?:a)` over a
character slice: anchored at position 0, it matches exactly when the slice
starts (at search position 0) with the letter `a`. -/
def matchCaretA (chars : List Char) (start length : Nat) : InterpResult :=
  if start = 0 ∧ 1 ≤ length ∧ chars.head? = some 'a' then
    .found [{ start := 0, limit := 1 }]
  else .notFound

/-- One would-be attempt of the underlying engine together with the interrupt
state `execute` would observe afterwards: `result` is the engine outcome,
`interruptPending` is `cx->runtime()->interrupt` read under the lock
(`RegExpObject.cpp:636-640`), and `callbackContinue` is the return value of
`InvokeInterruptCallback` (`RegExpObject.cpp:643`). -/
structure EngineAttempt where
  result : InterpResult
  interruptPending : Bool
  callbackContinue : Bool

/-- The `while (true)` retry loop of the native-code path of
`RegExpShared::execute` (`RegExpObject.cpp:617-663`), consuming the sequence
of would-be engine attempts: on `Error` with an interrupt pending, poll the
callback and either retry from scratch or return `Error`; on `Error` without
an interrupt, report over-recursion and return `Error`; otherwise leave the
loop.  `none` means the attempt sequence was exhausted without a decision. -/
def jitExecuteLoop (displacement : Nat) (wantMatches : Bool) :
    List EngineAttempt → Option (RunStatus × Option (List MatchPair))
  | [] => none
  | a :: rest =>
    match a.result with
    | .error =>
      if a.interruptPending then
        if a.callbackContinue then jitExecuteLoop displacement wantMatches rest
        else some (.error, none)
      else some (.error, none)
    | .notFound => some (.notFound, none)
    | .found pairs =>
      some (.success,
            if wantMatches then some (displacePairs pairs displacement)
            else none)

/-- The bytecode-interpreter path of `RegExpShared::execute`
(`RegExpObject.cpp:594-615`) over the same attempt-sequence view: the code
performs exactly one `irregexp::InterpretCode` call and returns its result
directly — an `Error` result is returned as-is, with no interrupt poll and no
retry, so only the head attempt is ever consumed. -/
def interpExecuteOnce (displacement : Nat) (wantMatches : Bool) :
    List EngineAttempt → Option (RunStatus × Option (List MatchPair))
  | [] => none
  | a :: _ =>
    match a.result with
    | .error => some (.error, none)
    | .notFound => some (.notFound, none)
    | .found pairs =>
      some (.success,
            if wantMatches then some (displacePairs pairs displacement)
            else none)

/-- Modelled from the spec: the regex metacharacters recognized by
`js::StringHasRegExpMetaChars` (declared in `jsstr.h`, outside the excerpt) —
a pattern with none of these has no special regex semantics. -/
def isRegExpMetaChar (c : Char) : Bool :=
  c = '^' || c = '$' || c = '\\' || c = '.' || c = '*' || c = '+'
    || c = '?' || c = '(' || c = ')' || c = '[' || c = ']'
    || c = '\x7b' || c = '\x7d' || c = '|'

/-- Modelled from the spec: `js::StringHasRegExpMetaChars` — whether the
pattern text contains any regex metacharacter. -/
def StringHasRegExpMetaChars (s : List Char) : Bool :=
  s.any isRegExpMetaChar

/-- The sticky source rewriting of `RegExpShared::compile`
(`RegExpObject.cpp:468-488`): prepend `^(?:` and append `)` , producing the
`fakeySource` actually handed to the inner compile. -/
def stickyWrapped (source : List Char) : List Char :=
  '^' :: '(' :: '?' :: ':' :: (source ++ [')'])

/-- The mutable compilation-relevant state of a `RegExpShared`
(`RegExpObject.cpp:431-433`): source, flags, `parenCount` and
`canStringMatch` (both initially cleared by the constructor). -/
structure RegExpSharedRec where
  source : List Char
  flags : RegExpFlags
  parenCount : Nat
  canStringMatch : Bool
  deriving DecidableEq

/-- Outcome of `RegExpShared::compile`: success with the updated record and
whether a compiled-code slot was populated, or a hard failure. -/
inductive CompileOutcome where
  | ok (rec2 : RegExpSharedRec) (codePopulated : Bool)
  | err
  deriving DecidableEq

/-- The inner `RegExpShared::compile(cx, pattern, input, mode)`
(`RegExpObject.cpp:491-531`), with the external irregexp parser/compiler
abstracted as `ext` (giving the capture count on success): when the pattern
is not case-insensitive and has no metacharacters, set `canStringMatch`,
zero `parenCount`, and populate no code slot; otherwise parse and compile,
recording `data.capture_count` and filling a code slot. -/
def compileInner (ext : List Char → Option Nat) (r : RegExpSharedRec)
    (pattern : List Char) : CompileOutcome :=
  if ¬r.flags.ignoreCase ∧ ¬StringHasRegExpMetaChars pattern then
    .ok { r with canStringMatch := true, parenCount := 0 } false
  else
    match ext pattern with
    | none => .err
    | some caps => .ok { r with parenCount := caps } true

/-- The outer `RegExpShared::compile(cx, input, mode)`
(`RegExpObject.cpp:457-489`): non-sticky patterns compile their own source;
sticky patterns compile the `^(?:source)` rewriting. -/
def compileShared (ext : List Char → Option Nat) (r : RegExpSharedRec) :
    CompileOutcome :=
  if r.flags.sticky then compileInner ext r (stickyWrapped r.source)
  else compileInner ext r r.source

/-- Modelled from the spec: `js::StringFindPattern` (external to the excerpt)
— the first position at or after `start` where `pat` occurs in `text`, or
`-1` when there is none. -/
def stringFindPattern (text pat : List Char) (start : Nat) : Int :=
  match (List.range (text.length + 1)).find?
      (fun i => decide (start ≤ i) && decide ((text.drop i).take pat.length = pat)) with
  | some i => (i : Int)
  | none => -1

/-- The `canStringMatch` branch of `RegExpShared::execute`
(`RegExpObject.cpp:579-592`): substring search for the source text starting
at `start + charsOffset`; on success the single capture pair is
`(res, res + source.length)`. -/
def executeStringMatch (input source : List Char) (start charsOffset : Nat)
    (wantMatches : Bool) : RunStatus × Option (List MatchPair) :=
  let res := stringFindPattern input source (start + charsOffset)
  if res = -1 then (.notFound, none)
  else
    (.success,
     if wantMatches then some [{ start := res, limit := res + source.length }]
     else none)

/-- Pattern identity key of the compartment cache (`RegExpCompartment::Key` as
used at `RegExpObject.cpp:801`): source text plus flag bitset, compared by
value (atoms are interned, so atom identity is content identity). -/
structure RegKey where
  source : List Char
  flags : RegExpFlags
  deriving DecidableEq

/-- The compartment registry `RegExpCompartment::set_`: the keyed entries in
insertion order, each holding the identity (`Nat` stands for the
`RegExpShared *` pointer), plus a fresh-identity counter standing for the
allocator. -/
structure Registry where
  entries : List (RegKey × Nat)
  nextId : Nat

/-- `RegExpCompartment::get` (`RegExpObject.cpp:798-826`): look up by key; on
a hit return the existing record; on a miss construct a fresh record
(`cx->new_<RegExpShared>`), add it under the key, and return it. -/
def Registry.get (reg : Registry) (source : List Char) (flags : RegExpFlags) :
    Nat × Registry :=
  match reg.entries.find? (fun e => e.1 = RegKey.mk source flags) with
  | some e => (e.2, reg)
  | none =>
    (reg.nextId,
     { entries := reg.entries ++ [(RegKey.mk source flags, reg.nextId)],
       nextId := reg.nextId + 1 })

/-- The number of registry entries stored under a given key. -/
def Registry.keyCount (reg : Registry) (source : List Char)
    (flags : RegExpFlags) : Nat :=
  reg.entries.countP (fun e => e.1 = RegKey.mk source flags)

/-- The sweep-relevant view of one registry entry (`RegExpShared` fields read
by `RegExpCompartment::sweep`): the `marked_` hint, whether the source atom
is about to be finalized, and for each populated jit-code slot whether that
code is about to be finalized (`none` = slot not populated). -/
structure SweepEntry where
  marked : Bool
  sourceDying : Bool
  jitSlots : List (Option Bool)
  deriving DecidableEq

/-- The `keep` computation of `RegExpCompartment::sweep`
(`RegExpObject.cpp:774-782`): start from `marked_ && source not dying`, then
clear `keep` for every populated jit-code slot that is about to be
finalized. -/
def sweepKeep (e : SweepEntry) : Bool :=
  e.jitSlots.foldl
    (fun keep slot =>
      match slot with
      | some dying => if dying then false else keep
      | none => keep)
    (e.marked && !e.sourceDying)

/-- The entry loop of `RegExpCompartment::sweep` (`RegExpObject.cpp:762-789`):
a kept entry (or any entry while the heap is compacting) has its mark
cleared and stays; every other entry has its record deleted and is removed
from the set. -/
def sweepLoop (heapCompacting : Bool) : List SweepEntry → List SweepEntry
  | [] => []
  | e :: rest =>
    if sweepKeep e || heapCompacting then
      { e with marked := false } :: sweepLoop heapCompacting rest
    else sweepLoop heapCompacting rest

/-- The template-object clearing at the end of `RegExpCompartment::sweep`
(`RegExpObject.cpp:791-795`): the lazily-created descriptor (`some dying`,
with `dying` = about to be finalized) is cleared exactly when present and
about to be finalized. -/
def sweepTemplate : Option Bool → Option Bool
  | none => none
  | some dying => if dying then none else some dying

/-- An arena-backed `ScopedMatchPairs` buffer (`vm/MatchPairs.h` state as
mutated by `RegExpObject.cpp:184-201`): `pairCount_`, the `pairs_` contents,
the identity of the arena block backing `pairs_` (`none` = null pointer),
and the arena's fresh-block counter. -/
structure ScopedPairsState where
  pairCount : Nat
  pairs : List MatchPair
  storageId : Option Nat
  arenaNext : Nat
  deriving DecidableEq

/-- Outcome of a `MatchPairs` allocation call: success with the new state,
allocation failure (`LifoAlloc` returned null), or a `MOZ_ASSERT`
violation. -/
inductive AllocResult where
  | ok (s : ScopedPairsState)
  | oom
  | assertFail
  deriving DecidableEq

/-- `ScopedMatchPairs::allocOrExpandArray` (`RegExpObject.cpp:184-201`):
if already allocated, assert the same pair count and reuse the storage;
otherwise carve a fresh block from the arena (which may fail), parametrized
by whether the arena can satisfy the request.  The freshly allocated block is
uninitialized; its junk contents are modelled as `(0, 0)` pairs. -/
def scopedAllocOrExpandArray (canAlloc : Bool) (s : ScopedPairsState)
    (pairCount : Nat) : AllocResult :=
  if s.pairCount ≠ 0 then
    if s.storageId.isSome ∧ s.pairCount = pairCount then .ok s
    else .assertFail
  else if s.storageId.isSome then .assertFail
  else if canAlloc then
    .ok { pairCount := pairCount,
          pairs := List.replicate pairCount { start := 0, limit := 0 },
          storageId := some s.arenaNext,
          arenaNext := s.arenaNext + 1 }
  else .oom

/-- `MatchPairs::initArray` (`RegExpObject.cpp:140-156`) over the scoped
allocation discipline: assert `pairCount > 0`, guarantee buffer space, then
set every pair to `(-1, -1)`. -/
def scopedInitArray (canAlloc : Bool) (s : ScopedPairsState)
    (pairCount : Nat) : AllocResult :=
  if pairCount = 0 then .assertFail
  else
    match scopedAllocOrExpandArray canAlloc s pairCount with
    | .ok s2 =>
      .ok { s2 with
            pairs := List.replicate pairCount { start := -1, limit := -1 } }
    | r => r

lemma wordSize_eq : wordSize = 18446744073709551616 := by
  norm_num [wordSize]

lemma stickySliceLength_of_le {len start : Nat} (h : start ≤ len)
    (hlen : len < wordSize) : stickySliceLength len start = len - start := by
  have hw := wordSize_eq
  simp only [stickySliceLength, hw] at *
  omega

/-- C10: the sticky path computes the slice length as the raw unsigned
difference `input length − startOffset` with no bounds check; under the
unstated precondition `startOffset ≤ input length` the subtraction does not
wrap (and stays within the input), and without it the computed slice length
wraps around modulo `2 ^ 64`, exceeding the input length. -/
theorem c10_sticky_unsigned_subtraction (len start : Nat)
    (hlen : len < wordSize) (hstart : start < wordSize) :
    (start ≤ len →
      stickySliceLength len start = len - start
        ∧ stickySliceLength len start ≤ len)
    ∧ (len < start →
      stickySliceLength len start = len + wordSize - start
        ∧ len < stickySliceLength len start) := by
  have hw := wordSize_eq
  simp only [stickySliceLength, hw] at *
  constructor <;> intro h <;> constructor <;> omega

/-- Witness for C10 at `len = 3`: `start = 2` does not wrap, while
`start = 5` wraps to a huge slice length. -/
theorem c10_witness :
    stickySliceLength 3 2 = 3 - 2 ∧ stickySliceLength 3 5 = 3 + wordSize - 5 :=
  ⟨((c10_sticky_unsigned_subtraction 3 2 (by decide) (by decide)).1
      (by decide)).1,
   ((c10_sticky_unsigned_subtraction 3 5 (by decide) (by decide)).2
      (by decide)).1⟩

/-- C6: the textual rendering is `/source/flags` with an empty source
rendered as `/(?:)/`, and exactly the flag letters whose bits are set are
appended in the fixed order g, i, m, y; parsing the flag string `"gim"` and
rendering the resulting bitset yields exactly `"gim"`, and an empty source
with no flags renders as `/(?:)/`. -/
theorem c6_tostring_roundtrip :
    (∀ (src : List Char) (f : RegExpFlags), src ≠ [] →
      regExpToString src f = '/' :: (src ++ ['/']) ++ flagSuffix f)
    ∧ (∀ f : RegExpFlags, flagSuffix f = ['g', 'i', 'm', 'y'].filter (flagBit f))
    ∧ (ParseRegExpFlags ['g', 'i', 'm']).1 = true
    ∧ flagSuffix (ParseRegExpFlags ['g', 'i', 'm']).2.1 = ['g', 'i', 'm']
    ∧ regExpToString [] noFlags = ['/', '(', '?', ':', ')', '/'] := by
  refine ⟨?_, ?_, by decide, by decide, by decide⟩
  · intro src f hsrc
    simp [regExpToString, List.length_eq_zero, hsrc]
  · intro f
    obtain ⟨i, g, m, y⟩ := f
    cases i <;> cases g <;> cases m <;> cases y <;> decide

/-- Witness for C6 at a concrete nonempty source: `/ab/` plus suffix `gy`. -/
theorem c6_witness :
    regExpToString ['a', 'b'] { noFlags with global := true, sticky := true }
      = ['/', 'a', 'b', '/', 'g', 'y'] := by
  rw [(c6_tostring_roundtrip.1 ['a', 'b']
        { noFlags with global := true, sticky := true } (by decide))]
  decide

/-- C8: on a scoped (arena-backed) buffer, `initArray n` (with `n > 0`) run
twice in succession succeeds the second time unconditionally, reuses exactly
the same storage (the state, including the backing block identity, is
unchanged), and leaves all `n` pairs at `(-1, -1)` each time; requesting any
different pair count on the already-allocated buffer is an assertion
violation, not a recovered error. -/
theorem c8_scoped_pairs_reuse (canAlloc canAlloc2 : Bool)
    (s s1 : ScopedPairsState) (n : Nat) (hn : 0 < n)
    (h1 : scopedInitArray canAlloc s n = .ok s1) :
    s1.pairCount = n
    ∧ s1.pairs = List.replicate n { start := -1, limit := -1 }
    ∧ scopedInitArray canAlloc2 s1 n = .ok s1
    ∧ (∀ m, m ≠ n → scopedAllocOrExpandArray canAlloc2 s1 m = .assertFail) := by
  have hn2 : n ≠ 0 := by omega
  unfold scopedInitArray at h1
  rw [if_neg hn2] at h1
  have hmain : s1.pairCount = n
      ∧ s1.pairs = List.replicate n { start := -1, limit := -1 }
      ∧ s1.storageId.isSome = true := by
    cases halloc : scopedAllocOrExpandArray canAlloc s n with
    | ok s2 =>
      rw [halloc] at h1
      have hs1 : s1 = { s2 with
          pairs := List.replicate n { start := -1, limit := -1 } } := by
        cases h1
        rfl
      have h2 : s2.pairCount = n ∧ s2.storageId.isSome = true := by
        unfold scopedAllocOrExpandArray at halloc
        by_cases hc : s.pairCount ≠ 0
        · rw [if_pos hc] at halloc
          by_cases hc2 : s.storageId.isSome = true ∧ s.pairCount = n
          · rw [if_pos hc2] at halloc
            cases halloc
            exact ⟨hc2.2, hc2.1⟩
          · rw [if_neg hc2] at halloc
            cases halloc
        · rw [if_neg hc] at halloc
          by_cases hc3 : s.storageId.isSome = true
          · rw [if_pos hc3] at halloc
            cases halloc
          · rw [if_neg hc3] at halloc
            cases canAlloc
            · simp at halloc
            · simp at halloc
              rw [← halloc]
              exact ⟨rfl, rfl⟩
      rw [hs1]
      exact ⟨h2.1, rfl, h2.2⟩
    | oom => rw [halloc] at h1; cases h1
    | assertFail => rw [halloc] at h1; cases h1
  obtain ⟨hcount, hpairs, hsome⟩ := hmain
  have hcount2 : s1.pairCount ≠ 0 := by omega
  have halloc2 : scopedAllocOrExpandArray canAlloc2 s1 n = .ok s1 := by
    unfold scopedAllocOrExpandArray
    rw [if_pos hcount2, if_pos ⟨hsome, hcount⟩]
  refine ⟨hcount, hpairs, ?_, ?_⟩
  · unfold scopedInitArray
    rw [if_neg hn2, halloc2]
    have : { s1 with
        pairs := List.replicate n { start := -1, limit := -1 } } = s1 := by
      cases s1
      simp_all
    exact congrArg AllocResult.ok this
  · intro m hm
    unfold scopedAllocOrExpandArray
    rw [if_pos hcount2, if_neg]
    intro hcontra
    exact hm (hcount ▸ hcontra.2.symm)

/-- Witness for C8: a fresh scoped buffer, `initArray 3` twice. -/
theorem c8_witness :
    scopedInitArray true
        { pairCount := 3,
          pairs := List.replicate 3 { start := -1, limit := -1 },
          storageId := some 0, arenaNext := 1 } 3
      = .ok { pairCount := 3,
              pairs := List.replicate 3 { start := -1, limit := -1 },
              storageId := some 0, arenaNext := 1 }
    ∧ scopedAllocOrExpandArray true
        { pairCount := 3,
          pairs := List.replicate 3 { start := -1, limit := -1 },
          storageId := some 0, arenaNext := 1 } 2 = .assertFail := by
  have h := c8_scoped_pairs_reuse true true
    { pairCount := 0, pairs := [], storageId := none, arenaNext := 0 }
    { pairCount := 3,
      pairs := List.replicate 3 { start := -1, limit := -1 },
      storageId := some 0, arenaNext := 1 } 3 (by decide) (by decide)
  exact ⟨h.2.2.1, h.2.2.2 2 (by decide)⟩

/-- C1: within one registry, two `getOrCreate` lookups with equal source
content and equal flags return the very same record (the second lookup
returns the identity returned by the first and leaves the registry
unchanged); a hit returns the previously inserted record without modifying
the registry, and a miss inserts exactly one new record under that key. -/
theorem c1_get_or_create_identity (reg : Registry) (s : List Char)
    (f : RegExpFlags) :
    ((reg.get s f).2.get s f).1 = (reg.get s f).1
    ∧ ((reg.get s f).2.get s f).2 = (reg.get s f).2
    ∧ (∀ e, reg.entries.find? (fun e2 => e2.1 = RegKey.mk s f) = some e →
        reg.get s f = (e.2, reg))
    ∧ (reg.entries.find? (fun e2 => e2.1 = RegKey.mk s f) = none →
        reg.get s f = (reg.nextId,
          { entries := reg.entries ++ [(RegKey.mk s f, reg.nextId)],
            nextId := reg.nextId + 1 })
        ∧ reg.keyCount s f = 0
        ∧ (reg.get s f).2.keyCount s f = 1) := by
  cases h : reg.entries.find? (fun e2 => e2.1 = RegKey.mk s f) with
  | some e =>
    have hget : reg.get s f = (e.2, reg) := by
      unfold Registry.get
      rw [h]
    refine ⟨by simp [hget], by simp [hget], ?_, ?_⟩
    · intro e2 h2
      cases h2
      exact hget
    · intro h2
      simp at h2
  | none =>
    have hget : reg.get s f = (reg.nextId,
        { entries := reg.entries ++ [(RegKey.mk s f, reg.nextId)],
          nextId := reg.nextId + 1 }) := by
      unfold Registry.get
      rw [h]
    have hfind2 : (reg.entries ++ [(RegKey.mk s f, reg.nextId)]).find?
        (fun e2 => e2.1 = RegKey.mk s f)
        = some (RegKey.mk s f, reg.nextId) := by
      rw [List.find?_append, h]
      simp
    have hget3 : Registry.get
        { entries := reg.entries ++ [(RegKey.mk s f, reg.nextId)],
          nextId := reg.nextId + 1 } s f
        = (reg.nextId,
           { entries := reg.entries ++ [(RegKey.mk s f, reg.nextId)],
             nextId := reg.nextId + 1 }) := by
      unfold Registry.get
      rw [hfind2]
    have hzero : reg.keyCount s f = 0 := by
      unfold Registry.keyCount
      rw [List.countP_eq_zero]
      exact List.find?_eq_none.mp h
    have hz2 : reg.entries.countP
        (fun e2 => e2.1 = RegKey.mk s f) = 0 := hzero
    refine ⟨by simp [hget, hget3], by simp [hget, hget3], ?_, ?_⟩
    · intro e2 h2
      simp at h2
    · intro _
      refine ⟨hget, hzero, ?_⟩
      simp [hget, Registry.keyCount, List.countP_append, List.countP_cons, hz2]

/-- Witness for C1: the empty registry misses, inserts one entry, and the
second lookup returns the same identity. -/
theorem c1_witness :
    ({ entries := [], nextId := 0 } : Registry).keyCount ['a'] noFlags = 0
    ∧ (Registry.get { entries := [], nextId := 0 } ['a']
        noFlags).2.keyCount ['a'] noFlags = 1 := by
  have h := (c1_get_or_create_identity { entries := [], nextId := 0 } ['a']
    noFlags).2.2.2 (by decide)
  exact ⟨h.2.1, h.2.2⟩

lemma sweepKeepFold (b : Bool) (l : List (Option Bool)) :
    l.foldl
      (fun keep slot =>
        match slot with
        | some dying => if dying then false else keep
        | none => keep) b
      = (b && l.all (fun slot => slot ≠ some true)) := by
  induction l generalizing b with
  | nil => simp
  | cons x xs ih =>
    rw [List.foldl_cons, ih]
    cases x with
    | none => simp
    | some d => cases d <;> simp

/-- C7: the sweep pass visits every entry, retaining exactly those that were
marked since the last sweep and whose backing source text and every populated
compiled-code slot are still externally referenced — or every entry while the
global heap-compacting (preserve-all) mode is active; retained entries have
their mark cleared, every other entry is destroyed and removed; and the
lazily-created template result-descriptor is independently cleared exactly
when it has become unreferenced. -/
theorem c7_sweep_retention (hc : Bool) (entries : List SweepEntry) :
    sweepLoop hc entries =
      (entries.filter (fun e => sweepKeep e || hc)).map
        (fun e => { e with marked := false })
    ∧ (∀ e, sweepKeep e =
        (e.marked && !e.sourceDying
          && e.jitSlots.all (fun slot => slot ≠ some true)))
    ∧ (∀ e ∈ sweepLoop hc entries, e.marked = false)
    ∧ (∀ t : Option Bool, sweepTemplate t = none ↔ (t = none ∨ t = some true)) := by
  have hkeep : ∀ e : SweepEntry, sweepKeep e =
      (e.marked && !e.sourceDying
        && e.jitSlots.all (fun slot => slot ≠ some true)) := by
    intro e
    unfold sweepKeep
    rw [sweepKeepFold, Bool.and_assoc]
  have hloop : sweepLoop hc entries =
      (entries.filter (fun e => sweepKeep e || hc)).map
        (fun e => { e with marked := false }) := by
    induction entries with
    | nil => rfl
    | cons e rest ih =>
      cases hb : (sweepKeep e || hc) with
      | true => simp [sweepLoop, List.filter_cons, hb, ih]
      | false => simp [sweepLoop, List.filter_cons, hb, ih]
  refine ⟨hloop, hkeep, ?_, ?_⟩
  · intro e he
    rw [hloop] at he
    obtain ⟨e2, _, he2⟩ := List.mem_map.mp he
    rw [← he2]
  · intro t
    cases t with
    | none => simp [sweepTemplate]
    | some d => cases d <;> simp [sweepTemplate]

/-- Witness for C7 at a two-entry registry: the marked, fully-referenced
entry survives with its mark cleared; the unmarked entry is destroyed. -/
theorem c7_witness :
    sweepLoop false
        [{ marked := true, sourceDying := false, jitSlots := [none, some false] },
         { marked := false, sourceDying := false, jitSlots := [] }]
      = [{ marked := false, sourceDying := false,
           jitSlots := [none, some false] }] := by
  rw [(c7_sweep_retention false
    [{ marked := true, sourceDying := false, jitSlots := [none, some false] },
     { marked := false, sourceDying := false, jitSlots := [] }]).1]
  decide

/-- C2: for a sticky pattern, `execute` treats `startOffset` as a
displacement — it hands the engine the slice of the input beginning exactly
at `startOffset`, searching from position 0 of that slice, and after a
confirmed match adds `startOffset` back onto every non-negative offset of
every capture pair; concretely, a sticky pattern equivalent to `^a` run
against `"xxa"` with `startOffset = 2` yields `Success` with whole-match
pair `(2, 3)`, and with `startOffset = 0` yields `NotFound`. -/
theorem c2_sticky_displacement :
    (∀ (interp : List Char → Nat → Nat → InterpResult) (input : List Char)
        (start : Nat),
      start ≤ input.length → input.length < wordSize →
      executeInterp interp true input start true =
        (match interp (input.drop start) 0 (input.length - start) with
         | .error => (.error, none)
         | .notFound => (.notFound, none)
         | .found pairs => (.success, some (displacePairs pairs start))))
    ∧ executeInterp matchCaretA true ['x', 'x', 'a'] 2 true
        = (.success, some [{ start := 2, limit := 3 }])
    ∧ executeInterp matchCaretA true ['x', 'x', 'a'] 0 true
        = (.notFound, none) := by
  refine ⟨?_, by decide, by decide⟩
  intro interp input start h1 h2
  simp only [executeInterp, stickySliceLength_of_le h1 h2, if_true]

/-- Witness for C2: the general sticky-displacement equation at the concrete
`^a`-equivalent engine over `"xxa"` with `startOffset = 2`. -/
theorem c2_witness :
    executeInterp matchCaretA true ['x', 'x', 'a'] 2 true
      = (match matchCaretA (['x', 'x', 'a'].drop 2) 0
            (['x', 'x', 'a'].length - 2) with
         | .error => (.error, none)
         | .notFound => (.notFound, none)
         | .found pairs => (.success, some (displacePairs pairs 2))) :=
  c2_sticky_displacement.1 matchCaretA ['x', 'x', 'a'] 2 (by decide) (by decide)

/-- Attempt sequence exhibiting the interrupt-retry divergence between the
two compiled execution paths: the first engine attempt aborts with an
interrupt pending and a callback that permits continuation; a retried
attempt would succeed. -/
def retryScenario : List EngineAttempt :=
  [{ result := .error, interruptPending := true, callbackContinue := true },
   { result := .found [{ start := 0, limit := 1 }],
     interruptPending := false, callbackContinue := true }]

/-- Counterexample to C4 as stated: the retry-on-interrupt behaviour does
not apply to both compiled execution paths.  On the same attempt scenario —
engine aborts with an interrupt pending and the callback permits
continuation, after which a retry would succeed — the bytecode-interpreter
path (`RegExpObject.cpp:594-615`) returns `Error` immediately without any
interrupt poll or retry, while the native-code path
(`RegExpObject.cpp:617-663`) retries and succeeds. -/
theorem c4_counterexample :
    interpExecuteOnce 0 true retryScenario = some (.error, none)
    ∧ jitExecuteLoop 0 true retryScenario
        = some (.success, some [{ start := 0, limit := 1 }])
    ∧ interpExecuteOnce 0 true retryScenario
        ≠ jitExecuteLoop 0 true retryScenario := by
  refine ⟨rfl, rfl, by decide⟩

/-- C4 as amended: in the native-code path's retry loop, an engine abort
with an external interrupt pending polls the interrupt callback — if it
permits continuation the full match attempt is retried from scratch, and if
it requests termination `execute` returns `Error`; a true internal error
(no interrupt pending) returns `Error` immediately without retry.  The
bytecode-interpreter path, by contrast, returns `Error` immediately in all
of these cases, without consulting the interrupt state at all. -/
theorem c4_interrupt_retry (d : Nat) (w : Bool) (a : EngineAttempt)
    (rest : List EngineAttempt) :
    (a.result = .error → a.interruptPending = true →
      a.callbackContinue = true →
      jitExecuteLoop d w (a :: rest) = jitExecuteLoop d w rest)
    ∧ (a.result = .error → a.interruptPending = true →
      a.callbackContinue = false →
      jitExecuteLoop d w (a :: rest) = some (.error, none))
    ∧ (a.result = .error → a.interruptPending = false →
      jitExecuteLoop d w (a :: rest) = some (.error, none))
    ∧ (a.result = .error →
      interpExecuteOnce d w (a :: rest) = some (.error, none)) := by
  refine ⟨?_, ?_, ?_, ?_⟩
  · intro h1 h2 h3
    simp [jitExecuteLoop, h1, h2, h3]
  · intro h1 h2 h3
    simp [jitExecuteLoop, h1, h2, h3]
  · intro h1 h2
    simp [jitExecuteLoop, h1, h2]
  · intro h1
    simp [interpExecuteOnce, h1]

/-- Witness for C4: one interrupted attempt with a permissive callback makes
the native-path loop move on to the rest of the attempt sequence. -/
theorem c4_witness :
    jitExecuteLoop 0 true
        [{ result := .error, interruptPending := true,
           callbackContinue := true }]
      = none := by
  rw [(c4_interrupt_retry 0 true
    { result := .error, interruptPending := true, callbackContinue := true }
    []).1 rfl rfl rfl]
  rfl

lemma stickyWrapped_hasMeta (s : List Char) :
    StringHasRegExpMetaChars (stickyWrapped s) = true := by
  simp [stickyWrapped, StringHasRegExpMetaChars, isRegExpMetaChar]

/-- A sticky pattern record whose source `a` has no metacharacters and whose
ignore-case flag is clear. -/
def c3StickyRec : RegExpSharedRec :=
  { source := ['a'], flags := { noFlags with sticky := true },
    parenCount := 0, canStringMatch := false }

/-- Counterexample to C3 as stated: for the sticky pattern `a`, whose source
contains no regex metacharacters and whose ignore-case flag is clear, the
claimed iff demands `canStringMatch = true`; but `compile` rewrites the
sticky source to `^(?:a)` before the metacharacter check
(`RegExpObject.cpp:468-488`), so compilation populates a code slot and
leaves `canStringMatch` false. -/
theorem c3_counterexample :
    StringHasRegExpMetaChars c3StickyRec.source = false
    ∧ c3StickyRec.flags.ignoreCase = false
    ∧ compileShared (fun _ => some 0) c3StickyRec = .ok c3StickyRec true
    ∧ c3StickyRec.canStringMatch = false := by decide

/-- C3 as amended: after a successful `compile` of a fresh record,
`canStringMatch` is true iff the pattern's source contains no regex
metacharacters, the ignore-case flag is not set, and the sticky flag is not
set (sticky compilation always checks the `^(?:source)` rewriting, which
contains metacharacters); when it is true, the capture count is set to 0 and
no code slot is populated, and execution degenerates to substring search:
a successful literal-path execution returns exactly one pair `(k, k + |source|)`
where `k` is an occurrence of the source text at or after the start offset. -/
theorem c3_literal_fast_path (ext : List Char → Option Nat)
    (r r2 : RegExpSharedRec) (cp : Bool)
    (h0 : r.canStringMatch = false)
    (h : compileShared ext r = .ok r2 cp) :
    (r2.canStringMatch = true ↔
      (r.flags.ignoreCase = false ∧ StringHasRegExpMetaChars r.source = false
        ∧ r.flags.sticky = false))
    ∧ (r2.canStringMatch = true → r2.parenCount = 0 ∧ cp = false)
    ∧ (∀ (input source2 : List Char) (start co : Nat) (res : List MatchPair),
        executeStringMatch input source2 start co true = (.success, some res) →
        ∃ k : Nat,
          res = [{ start := (k : Int),
                   limit := (k : Int) + (source2.length : Int) }]
          ∧ start + co ≤ k
          ∧ (input.drop k).take source2.length = source2) := by
  have hmain : (r2.canStringMatch = true ↔
      (r.flags.ignoreCase = false ∧ StringHasRegExpMetaChars r.source = false
        ∧ r.flags.sticky = false))
      ∧ (r2.canStringMatch = true → r2.parenCount = 0 ∧ cp = false) := by
    unfold compileShared at h
    cases hsticky : r.flags.sticky with
    | true =>
      rw [if_pos hsticky] at h
      unfold compileInner at h
      rw [if_neg (fun hcond => hcond.2 (stickyWrapped_hasMeta r.source))] at h
      cases hext : ext (stickyWrapped r.source) with
      | none => rw [hext] at h; cases h
      | some caps =>
        rw [hext] at h
        cases h
        constructor
        · simp [h0, hsticky]
        · intro hcsm
          rw [h0] at hcsm
          cases hcsm
    | false =>
      rw [if_neg (by rw [hsticky]; exact Bool.false_ne_true)] at h
      unfold compileInner at h
      by_cases hcond : ¬r.flags.ignoreCase
          ∧ ¬StringHasRegExpMetaChars r.source
      · rw [if_pos hcond] at h
        cases h
        constructor
        · simp [hsticky, hcond.1, hcond.2,
                Bool.not_eq_true _ ▸ hcond.1, Bool.not_eq_true _ ▸ hcond.2]
        · intro _
          exact ⟨rfl, rfl⟩
      · rw [if_neg hcond] at h
        cases hext : ext r.source with
        | none => rw [hext] at h; cases h
        | some caps =>
          rw [hext] at h
          cases h
          constructor
          · rw [h0]
            constructor
            · intro hx
              exact absurd hx (by simp)
            · intro hrhs
              exact absurd ⟨by simp [hrhs.1], by simp [hrhs.2.1]⟩ hcond
          · intro hcsm
            rw [h0] at hcsm
            cases hcsm
  refine ⟨hmain.1, hmain.2, ?_⟩
  intro input source2 start co res hrun
  unfold executeStringMatch stringFindPattern at hrun
  cases hf : (List.range (input.length + 1)).find?
      (fun i => decide (start + co ≤ i)
        && decide ((input.drop i).take source2.length = source2)) with
  | none =>
    rw [hf] at hrun
    simp at hrun
  | some i =>
    rw [hf] at hrun
    have hi : ((i : Int) = -1) = False := by
      simp only [eq_iff_iff, iff_false]
      omega
    rw [if_neg (by omega : ¬((i : Int) = -1))] at hrun
    have h2 : some [MatchPair.mk (i : Int)
        ((i : Int) + (source2.length : Int))] = some res :=
      congrArg Prod.snd hrun
    have hp := List.find?_some hf
    rw [Bool.and_eq_true, decide_eq_true_iff, decide_eq_true_iff] at hp
    exact ⟨i, (Option.some.inj h2).symm, hp.1, hp.2⟩

/-- Witness for C3 (amended): the non-sticky literal pattern `ab` compiles
onto the fast path with `canStringMatch` set. -/
theorem c3_witness :
    ({ source := ['a', 'b'], flags := noFlags, parenCount := 0,
       canStringMatch := true } : RegExpSharedRec).canStringMatch = true := by
  have h := c3_literal_fast_path (fun _ => some 0)
    { source := ['a', 'b'], flags := noFlags, parenCount := 0,
      canStringMatch := false }
    { source := ['a', 'b'], flags := noFlags, parenCount := 0,
      canStringMatch := true }
    false rfl (by decide)
  exact h.1.mpr ⟨rfl, by decide, rfl⟩

lemma withinBounds_displaceOne {p : MatchPair} {m d L : Nat}
    (h : p.withinBounds m = true) (hL : m + d ≤ L) :
    (p.displaceOne d).withinBounds L = true := by
  simp only [MatchPair.withinBounds, MatchPair.displaceOne, Bool.and_eq_true,
    Bool.or_eq_true, decide_eq_true_iff] at h ⊢
  obtain ⟨h1, h2⟩ := h
  constructor
  · split_ifs <;> omega
  · split_ifs <;> omega

lemma checkAgainst_displace {pairs : List MatchPair} {m d L : Nat}
    (h : checkAgainstOk pairs m = true) (hL : m + d ≤ L) :
    checkAgainstOk (displacePairs pairs d) L = true := by
  by_cases hd : d = 0
  · subst hd
    rw [displacePairs, if_pos rfl]
    simp only [checkAgainstOk, List.all_eq_true] at h ⊢
    intro p hp
    have hpm := h p hp
    simp only [MatchPair.withinBounds, Bool.and_eq_true, Bool.or_eq_true,
      decide_eq_true_iff] at hpm ⊢
    omega
  · rw [displacePairs, if_neg hd]
    simp only [checkAgainstOk, List.all_eq_true, List.mem_map] at h ⊢
    rintro p2 ⟨p, hp, rfl⟩
    exact withinBounds_displaceOne (h p hp) hL

/-- C9: when `execute` confirms a match with captures requested and
`startOffset ≤ input length`, and the underlying engine reports capture
offsets within the slice it was handed (each offset `-1` or within
`[0, slice length]`), then after the offset un-displacement every recorded
offset of every capture pair is `-1` or lies within `[0, original input
length]` — the post-match `checkAgainst` consistency assertion holds. -/
theorem c9_postmatch_bounds (interp : List Char → Nat → Nat → InterpResult)
    (sticky : Bool) (input : List Char) (start : Nat) (out : List MatchPair)
    (hstart : start ≤ input.length)
    (hbound : ∀ pairs,
      interp (input.drop (if sticky then start else 0))
          (if sticky then 0 else start)
          (if sticky then stickySliceLength input.length start
           else input.length)
        = .found pairs →
      checkAgainstOk pairs
        (if sticky then input.length - start else input.length) = true)
    (hrun : executeInterp interp sticky input start true
        = (.success, some out)) :
    checkAgainstOk out input.length = true := by
  cases sticky with
  | false =>
    simp [executeInterp] at hrun
    cases hi : interp input start input.length with
    | error => rw [hi] at hrun; simp at hrun
    | notFound => rw [hi] at hrun; simp at hrun
    | found pairs =>
      rw [hi] at hrun
      have hout : displacePairs pairs 0 = out :=
        Option.some.inj (congrArg Prod.snd hrun)
      have hb2 : checkAgainstOk pairs input.length = true := by
        simpa using hbound pairs (by simpa using hi)
      rw [← hout]
      exact checkAgainst_displace hb2 (by omega)
  | true =>
    simp [executeInterp] at hrun
    cases hi : interp (input.drop start) 0
        (stickySliceLength input.length start) with
    | error => rw [hi] at hrun; simp at hrun
    | notFound => rw [hi] at hrun; simp at hrun
    | found pairs =>
      rw [hi] at hrun
      have hout : displacePairs pairs start = out :=
        Option.some.inj (congrArg Prod.snd hrun)
      have hb2 : checkAgainstOk pairs (input.length - start) = true := by
        simpa using hbound pairs (by simpa using hi)
      rw [← hout]
      exact checkAgainst_displace hb2 (by omega)

/-- Witness for C9: the sticky `^a`-equivalent engine over `"xxa"` at
`startOffset = 2` yields the whole-match pair `(2, 3)`, within bounds. -/
theorem c9_witness :
    checkAgainstOk [{ start := 2, limit := 3 }] (['x', 'x', 'a'] : List Char).length
      = true := by
  refine c9_postmatch_bounds matchCaretA true ['x', 'x', 'a'] 2
    [{ start := 2, limit := 3 }] (by decide) ?_ (by decide)
  intro pairs h
  have h3 := (Eq.trans
    (by decide : InterpResult.found [{ start := 0, limit := 1 }]
        = matchCaretA (List.drop (if (true : Bool) then 2 else 0)
            ['x', 'x', 'a'])
          (if (true : Bool) then 0 else 2)
          (if (true : Bool) then stickySliceLength
              (['x', 'x', 'a'] : List Char).length 2
           else (['x', 'x', 'a'] : List Char).length))
    h)
  injection h3 with h4
  rw [← h4]
  decide

lemma flagStep_some {c : Char} {f f2 : RegExpFlags}
    (h : flagStep c f = some f2) :
    recognizedFlagChar c = true ∧ flagBit f c = false
      ∧ ∀ x, flagBit f2 x = (flagBit f x || decide (x = c)) := by
  by_cases h1 : c = 'i'
  · subst h1
    cases hfc : f.ignoreCase <;> rw [flagStep, if_pos rfl, hfc] at h
    · simp only [Bool.false_eq_true, if_false, Option.some.injEq] at h
      subst h
      refine ⟨by decide, by simp [flagBit, hfc], ?_⟩
      intro x
      by_cases hx1 : x = 'i' <;> by_cases hx2 : x = 'g' <;>
        by_cases hx3 : x = 'm' <;> by_cases hx4 : x = 'y' <;>
        simp_all [flagBit]
    · simp at h
  by_cases h2 : c = 'g'
  · subst h2
    cases hfc : f.global <;> rw [flagStep, if_neg h1, if_pos rfl, hfc] at h
    · simp only [Bool.false_eq_true, if_false, Option.some.injEq] at h
      subst h
      refine ⟨by decide, by simp [flagBit, hfc], ?_⟩
      intro x
      by_cases hx1 : x = 'i' <;> by_cases hx2 : x = 'g' <;>
        by_cases hx3 : x = 'm' <;> by_cases hx4 : x = 'y' <;>
        simp_all [flagBit]
    · simp at h
  by_cases h3 : c = 'm'
  · subst h3
    cases hfc : f.multiline <;>
      rw [flagStep, if_neg h1, if_neg h2, if_pos rfl, hfc] at h
    · simp only [Bool.false_eq_true, if_false, Option.some.injEq] at h
      subst h
      refine ⟨by decide, by simp [flagBit, hfc], ?_⟩
      intro x
      by_cases hx1 : x = 'i' <;> by_cases hx2 : x = 'g' <;>
        by_cases hx3 : x = 'm' <;> by_cases hx4 : x = 'y' <;>
        simp_all [flagBit]
    · simp at h
  by_cases h4 : c = 'y'
  · subst h4
    cases hfc : f.sticky <;>
      rw [flagStep, if_neg h1, if_neg h2, if_neg h3, if_pos rfl, hfc] at h
    · simp only [Bool.false_eq_true, if_false, Option.some.injEq] at h
      subst h
      refine ⟨by decide, by simp [flagBit, hfc], ?_⟩
      intro x
      by_cases hx1 : x = 'i' <;> by_cases hx2 : x = 'g' <;>
        by_cases hx3 : x = 'm' <;> by_cases hx4 : x = 'y' <;>
        simp_all [flagBit]
    · simp at h
  · rw [flagStep, if_neg h1, if_neg h2, if_neg h3, if_neg h4] at h
    cases h

lemma flagStep_none_iff (c : Char) (f : RegExpFlags) :
    flagStep c f = none ↔
      (recognizedFlagChar c = false ∨ flagBit f c = true) := by
  by_cases h1 : c = 'i'
  · subst h1
    cases hfc : f.ignoreCase <;>
      simp [flagStep, flagBit, recognizedFlagChar, hfc]
  by_cases h2 : c = 'g'
  · subst h2
    cases hfc : f.global <;>
      simp [flagStep, flagBit, recognizedFlagChar, h1, hfc]
  by_cases h3 : c = 'm'
  · subst h3
    cases hfc : f.multiline <;>
      simp [flagStep, flagBit, recognizedFlagChar, h1, h2, hfc]
  by_cases h4 : c = 'y'
  · subst h4
    cases hfc : f.sticky <;>
      simp [flagStep, flagBit, recognizedFlagChar, h1, h2, h3, hfc]
  · simp [flagStep, flagBit, recognizedFlagChar, h1, h2, h3, h4]

lemma flagBit_true_recognized {f : RegExpFlags} {c : Char}
    (h : flagBit f c = true) : recognizedFlagChar c = true := by
  by_cases h1 : c = 'i' <;> by_cases h2 : c = 'g' <;> by_cases h3 : c = 'm'
    <;> by_cases h4 : c = 'y' <;> simp_all [flagBit, recognizedFlagChar]

lemma flagBit_noFlags (c : Char) : flagBit noFlags c = false := by
  unfold flagBit noFlags
  split_ifs <;> rfl

lemma parseLoop_ok_iff (cs : List Char) (f : RegExpFlags) (l : Option Char) :
    (ParseRegExpFlagsLoop cs f l).1 = true ↔
      ((∀ c ∈ cs, recognizedFlagChar c = true) ∧ cs.Nodup
        ∧ ∀ c ∈ cs, flagBit f c = false) := by
  induction cs generalizing f l with
  | nil => simp [ParseRegExpFlagsLoop]
  | cons c rest ih =>
    cases hs : flagStep c f with
    | none =>
      simp only [ParseRegExpFlagsLoop, hs]
      rw [flagStep_none_iff] at hs
      constructor
      · intro hx
        cases hx
      · rintro ⟨hrec, _, hbit⟩
        rcases hs with h | h
        · rw [hrec c (by simp)] at h
          cases h
        · rw [hbit c (by simp)] at h
          cases h
    | some f2 =>
      obtain ⟨hrec, hbit0, hrel⟩ := flagStep_some hs
      simp only [ParseRegExpFlagsLoop, hs]
      rw [ih]
      constructor
      · rintro ⟨h1, h2, h3⟩
        refine ⟨?_, ?_, ?_⟩
        · intro x hx
          rcases List.mem_cons.mp hx with rfl | hx2
          · exact hrec
          · exact h1 x hx2
        · rw [List.nodup_cons]
          refine ⟨?_, h2⟩
          intro hmem
          have hb := h3 c hmem
          rw [hrel c] at hb
          simp at hb
        · intro x hx
          rcases List.mem_cons.mp hx with rfl | hx2
          · exact hbit0
          · have hb := h3 x hx2
            rw [hrel x] at hb
            simp at hb
            exact hb.1
      · rintro ⟨h1, h2, h3⟩
        rw [List.nodup_cons] at h2
        refine ⟨fun x hx => h1 x (List.mem_cons_of_mem _ hx), h2.2, ?_⟩
        intro x hx
        have hxc : ¬(x = c) := fun hq => h2.1 (hq ▸ hx)
        rw [hrel x]
        simp [h3 x (List.mem_cons_of_mem _ hx), hxc]

lemma parseLoop_bits (cs : List Char) (f : RegExpFlags) (l : Option Char)
    (h : (ParseRegExpFlagsLoop cs f l).1 = true) :
    ∀ x, flagBit (ParseRegExpFlagsLoop cs f l).2.1 x
      = (flagBit f x || decide (x ∈ cs)) := by
  induction cs generalizing f l with
  | nil =>
    intro x
    simp [ParseRegExpFlagsLoop]
  | cons c rest ih =>
    cases hs : flagStep c f with
    | none => simp [ParseRegExpFlagsLoop, hs] at h
    | some f2 =>
      simp only [ParseRegExpFlagsLoop, hs] at h ⊢
      intro x
      rw [ih _ _ h x, (flagStep_some hs).2.2 x]
      simp [List.mem_cons, Bool.or_assoc]

lemma parseLoop_fail (cs : List Char) (f : RegExpFlags) (l : Option Char)
    (h : (ParseRegExpFlagsLoop cs f l).1 = false) :
    ∃ pre c suf, cs = pre ++ c :: suf
      ∧ (ParseRegExpFlagsLoop pre f l).1 = true
      ∧ flagStep c (ParseRegExpFlagsLoop pre f l).2.1 = none
      ∧ (ParseRegExpFlagsLoop cs f l).2.2 = some c
      ∧ (ParseRegExpFlagsLoop cs f l).2.1
          = (ParseRegExpFlagsLoop pre f l).2.1 := by
  induction cs generalizing f l with
  | nil => simp [ParseRegExpFlagsLoop] at h
  | cons c rest ih =>
    cases hs : flagStep c f with
    | none =>
      refine ⟨[], c, rest, rfl, by simp [ParseRegExpFlagsLoop], ?_, ?_, ?_⟩
      · simpa [ParseRegExpFlagsLoop] using hs
      · simp [ParseRegExpFlagsLoop, hs]
      · simp [ParseRegExpFlagsLoop, hs]
    | some f2 =>
      simp only [ParseRegExpFlagsLoop, hs] at h
      obtain ⟨pre, c2, suf, hcs, hok, hstep, hlast, hflags⟩ := ih _ _ h
      refine ⟨c :: pre, c2, suf, by rw [List.cons_append, hcs], ?_, ?_, ?_, ?_⟩
      · simpa [ParseRegExpFlagsLoop, hs] using hok
      · simpa [ParseRegExpFlagsLoop, hs] using hstep
      · simpa [ParseRegExpFlagsLoop, hs] using hlast
      · simpa [ParseRegExpFlagsLoop, hs] using hflags

/-- C5: flag parsing fails exactly when the string contains a letter outside
`{i, g, m, y}` or a letter whose flag bit is already set, in both cases
reporting the offending character (`lastParsed` is the first offending
letter, reached after a successful parse of the preceding prefix); the two
failure kinds are distinct — a failure on a recognized letter is exactly a
duplicate (its bit is already set in the reported bitset), a failure on an
unrecognized letter is exactly an invalid flag.  Empty input succeeds with
all flags false, and a successful parse sets exactly the bits of the
letters present. -/
theorem c5_flag_parsing :
    ParseRegExpFlags [] = (true, noFlags, none)
    ∧ (∀ cs, (ParseRegExpFlags cs).1 = true ↔
        ((∀ c ∈ cs, recognizedFlagChar c = true) ∧ cs.Nodup))
    ∧ (∀ cs, (ParseRegExpFlags cs).1 = true →
        (ParseRegExpFlags cs).2.1 =
          { ignoreCase := decide ('i' ∈ cs), global := decide ('g' ∈ cs),
            multiline := decide ('m' ∈ cs), sticky := decide ('y' ∈ cs) })
    ∧ (∀ cs, (ParseRegExpFlags cs).1 = false →
        ∃ pre c suf, cs = pre ++ c :: suf
          ∧ (ParseRegExpFlags pre).1 = true
          ∧ flagStep c (ParseRegExpFlags pre).2.1 = none
          ∧ (ParseRegExpFlags cs).2.2 = some c
          ∧ (ParseRegExpFlags cs).2.1 = (ParseRegExpFlags pre).2.1)
    ∧ (∀ cs c, (ParseRegExpFlags cs).1 = false →
        (ParseRegExpFlags cs).2.2 = some c →
        (recognizedFlagChar c = true ↔
          flagBit (ParseRegExpFlags cs).2.1 c = true)) := by
  refine ⟨rfl, ?_, ?_, ?_, ?_⟩
  · intro cs
    unfold ParseRegExpFlags
    rw [parseLoop_ok_iff]
    simp [flagBit_noFlags]
  · intro cs h
    have hb := parseLoop_bits cs noFlags none h
    have h1 : (ParseRegExpFlags cs).2.1.ignoreCase = decide ('i' ∈ cs) := by
      have := hb 'i'
      simpa [flagBit, flagBit_noFlags] using this
    have h2 : (ParseRegExpFlags cs).2.1.global = decide ('g' ∈ cs) := by
      have := hb 'g'
      simpa [flagBit, flagBit_noFlags] using this
    have h3 : (ParseRegExpFlags cs).2.1.multiline = decide ('m' ∈ cs) := by
      have := hb 'm'
      simpa [flagBit, flagBit_noFlags] using this
    have h4 : (ParseRegExpFlags cs).2.1.sticky = decide ('y' ∈ cs) := by
      have := hb 'y'
      simpa [flagBit, flagBit_noFlags] using this
    rw [← h1, ← h2, ← h3, ← h4]
  · intro cs h
    exact parseLoop_fail cs noFlags none h
  · intro cs c h hl
    obtain ⟨pre, c2, suf, hcs, hok, hstep, hlast, hflags⟩ :=
      parseLoop_fail cs noFlags none h
    have hc2 : c2 = c := Option.some.inj ((hlast.symm.trans hl))
    subst hc2
    unfold ParseRegExpFlags
    rw [hflags]
    rw [flagStep_none_iff] at hstep
    constructor
    · intro hrec
      rcases hstep with hx | hx
      · rw [hrec] at hx
        cases hx
      · exact hx
    · intro hbit
      exact flagBit_true_recognized hbit

/-- Witness for C5: parsing `"gim"` sets exactly the i, g, m bits. -/
theorem c5_witness :
    (ParseRegExpFlags ['g', 'i', 'm']).2.1
      = { ignoreCase := true, global := true, multiline := true,
          sticky := false } := by
  rw [c5_flag_parsing.2.2.1 ['g', 'i', 'm'] (by decide)]
  decide
